import Mathlib

/-!
Verification of the competitor-matrix spreadsheet editor
(repository `competitor-matrix`).

The repository ships several near-identical React variants of the same
component.  Two are embedded here:

* namespace `Core`  — the variant in `src/unnamed/part_002` (the only
  syntactically self-consistent module: the other two variants carry a
  duplicate `normalizeImageUrl` declaration resp. an unbalanced
  `extractDriveId` body).  It is the variant whose behaviour §4.3 of the
  spec describes: unconditional cell emission and `course_meta` synthesis.
* namespace `Proto` — the variant in `src/src/CompetitorMatrix.tsx`
  (identical, for the embedded parts, to `src/unnamed/part_003`):
  conditional cell emission, no identity-row synthesis.

JavaScript strings are modelled as Lean `String` / `List Char`; flat sheet
records (`Record<string,string>`) as association lists with the object's
key insertion order; `localStorage` as an association list.  Regular
expressions from the source are implemented as explicit character-list
scans mirroring the engine's leftmost-match behaviour.
-/

namespace Core

/-- A flat sheet row: column label to string value, in key insertion order. -/
abbrev SheetRow := List (String × String)

/-- Literal-prefix match: if `pat` is a prefix of the input, return the rest. -/
def takeLit : List Char → List Char → Option (List Char)
  | [], rest => some rest
  | _ :: _, [] => none
  | p :: ps, c :: cs => if p = c then takeLit ps cs else none

/-- Leftmost occurrence of the literal `pat`: returns the suffix following it.
Mirrors a regex engine advancing the start position one character at a time. -/
def findLit (pat : List Char) : List Char → Option (List Char)
  | [] => takeLit pat []
  | c :: cs =>
    match takeLit pat (c :: cs) with
    | some rest => some rest
    | none => findLit pat cs

/-- JS `String.prototype.includes` (substring test). -/
def containsSubstr (s pat : String) : Bool := (findLit pat.data s.data).isSome

/-- JS `String.prototype.toUpperCase`, restricted to the ASCII mapping
(`Char.toUpper`); the strings the theorems touch are ASCII. -/
def jsToUpper (s : String) : String := ⟨s.data.map Char.toUpper⟩

/-- JS `String.prototype.trim` (ASCII whitespace, which covers every input
appearing in the development). -/
def jsTrim (s : String) : String :=
  ⟨((s.data.dropWhile Char.isWhitespace).reverse.dropWhile Char.isWhitespace).reverse⟩

/-- Split on a separator character (JS `split` with a single-char pattern). -/
def splitChar (sep : Char) : List Char → List (List Char)
  | [] => [[]]
  | c :: cs =>
    match splitChar sep cs with
    | [] => [[]]
    | piece :: rest => if c = sep then [] :: piece :: rest else (c :: piece) :: rest

/-- Drop one trailing `\r` from every piece except the last: together with
`splitChar '\n'` this is JS `split(/\r?\n/)`. -/
def stripCR : List (List Char) → List (List Char)
  | [] => []
  | [last] => [last]
  | p :: rest => (match p.reverse with
      | '\r' :: t => t.reverse
      | _ => p) :: stripCR rest

/-- JS `s.split(/\r?\n/)`. -/
def splitLines (s : String) : List String :=
  (stripCR (splitChar '\n' s.data)).map List.asString

/-- Field access `String(r.key || "")`: missing keys give the empty string. -/
def fld (r : SheetRow) (k : String) : String := (r.lookup k).getD ""

/-- Field access `String(r.k1 || r.k2 || "")` (snake/camel tolerance). -/
def fld2 (r : SheetRow) (k1 k2 : String) : String :=
  let v1 := fld r k1
  if v1 = "" then fld r k2 else v1

/-- The literal of the regex `/\/file\/d\/([^/]+)/` (characters of
`"/file/d/"`). -/
def fileDLit : List Char := ['/', 'f', 'i', 'l', 'e', '/', 'd', '/']

/-- Scan for `/\/file\/d\/([^/]+)/`: at the leftmost occurrence of the
literal followed by at least one non-`/` character, capture the maximal
non-`/` run; otherwise keep scanning. -/
def m1scan : List Char → Option (List Char)
  | [] => none
  | c :: cs =>
    match takeLit fileDLit (c :: cs) with
    | some rest =>
      let cap := rest.takeWhile (· ≠ '/')
      if cap.isEmpty then m1scan cs else some cap
    | none => m1scan cs

/-- Scan for `/[?&]id=([^&]+)/`: a `?` or `&`, the literal `id=`, then a
nonempty maximal non-`&` run as the capture. -/
def m2scan : List Char → Option (List Char)
  | [] => none
  | c :: cs =>
    if c = '?' ∨ c = '&' then
      match takeLit ['i', 'd', '='] cs with
      | some rest =>
        let cap := rest.takeWhile (· ≠ '&')
        if cap.isEmpty then m2scan cs else some cap
      | none => m2scan cs
    else m2scan cs

/-- `extractDriveId` from `src/unnamed/part_002` lines 147–155: first the
`/file/d/<id>` convention, then the `?id=<id>` / `&id=<id>` convention. -/
def extractDriveId (u : String) : Option String :=
  match m1scan u.data with
  | some cap => some ⟨cap⟩
  | none =>
    match m2scan u.data with
    | some cap => some ⟨cap⟩
    | none => none

/-- The rewrite target prefix `https://drive.google.com/uc?export=view&id=`. -/
def drivePre : String := "https://drive.google.com/uc?export=view&id="

/-- `normalizeImageUrl` from `src/unnamed/part_002` lines 158–167.  After the
drive-id branch the source's image-extension check returns the input
unchanged on every path (`return u` in both the match and the fall-through),
so it is the identity and is elided. -/
def normalizeImageUrl (u : String) : String :=
  if u = "" then u
  else
    match extractDriveId u with
    | some id => drivePre ++ id
    | none => u

/-- `COURSE_CRIT_ID`: the reserved course-identity criterion id. -/
def COURSE_CRIT_ID : String := "course_meta"

/-- `COURSE_GROUP`: the dedicated course-identity group label. -/
def COURSE_GROUP : String := "0. Курс"

/-- `MISC_GROUP`: the catch-all group label. -/
def MISC_GROUP : String := "Прочие критерии"

/-- `Img = {url, caption?}`; the builder only ever sets `url`. -/
structure Img where
  url : String
  caption : Option String
deriving DecidableEq, Repr

/-- `Course = {id, name}`. -/
structure Course where
  id : String
  name : String
deriving DecidableEq, Repr

/-- `Criterion` as built by `part_002`: rows always carry a group and
(string-valued, possibly empty) description/filledBy; the synthesized
identity row carries neither. -/
structure Criterion where
  id : String
  name : String
  description : Option String
  filledBy : Option String
  group : String
deriving DecidableEq, Repr

/-- `Cell = {courseId, criterionId, text, images}` (`part_002` shape). -/
structure Cell where
  courseId : String
  criterionId : String
  text : String
  images : List Img
deriving DecidableEq, Repr

/-- `MatrixData = {criteria, courses, cells}`. -/
structure MatrixData where
  criteria : List Criterion
  courses : List Course
  cells : List Cell
deriving DecidableEq, Repr

/-- First-occurrence deduplication, mirroring JS `Set` insertion order. -/
def dedupAcc (seen : List String) : List String → List String
  | [] => []
  | x :: xs => if x ∈ seen then dedupAcc seen xs else x :: dedupAcc (x :: seen) xs

/-- The union of all column keys across all records, in first-insertion
order (`rows.forEach(r => Object.keys(r).forEach(k => allKeys.add(k)))`). -/
def allKeys (rows : List SheetRow) : List String :=
  dedupAcc [] (rows.flatMap fun r => r.map Prod.fst)

/-- `k.endsWith("_text")` then `k.slice(0, -"_text".length)`, as one step. -/
def stripTextKey (s : String) : Option String :=
  if s.data.drop (s.data.length - 5) = ['_', 't', 'e', 'x', 't'] ∧ 5 ≤ s.data.length
  then some ⟨s.data.take (s.data.length - 5)⟩ else none

/-- `parseInt(a.replace(/\D+/g, "")) || 0`: the number formed by
concatenating every digit of the string, `0` when there is none.
(JS float precision above 2^53 is not modelled; no theorem depends on it.) -/
def keyNum (s : String) : Nat :=
  (s.data.filter Char.isDigit).foldl (fun acc c => 10 * acc + (c.toNat - 48)) 0

/-- Code-unit lexicographic `≤` on strings, standing in for
`a.localeCompare(b) <= 0` (locale collation is not modelled; every string
compared by a theorem is plain ASCII). -/
def charListLe : List Char → List Char → Bool
  | [], _ => true
  | _ :: _, [] => false
  | a :: as, b :: bs => if a = b then charListLe as bs else decide (a < b)

/-- The sort comparator `(a, b) => na - nb || a.localeCompare(b)` as a
boolean "a comes no later than b". -/
def courseLe (a b : String) : Bool :=
  decide (keyNum a < keyNum b) || (decide (keyNum a = keyNum b) && charListLe a.data b.data)

/-- Insert into a `le`-sorted list, after any element that may precede `x`. -/
def insertSorted (le : String → String → Bool) (x : String) : List String → List String
  | [] => [x]
  | y :: ys => if le y x then y :: insertSorted le x ys else x :: y :: ys

/-- Sorting by a total boolean comparator.  Models `Array.prototype.sort`;
the keys being sorted are deduplicated, and `courseLe` admits no ties
between distinct keys, so every comparison sort produces this order. -/
def sortByLe (le : String → String → Bool) : List String → List String
  | [] => []
  | x :: xs => insertSorted le x (sortByLe le xs)

/-- The distinct `_text`-suffixed column keys with the suffix stripped,
before sorting. -/
def courseKeys (rows : List SheetRow) : List String :=
  (allKeys rows).filterMap stripTextKey

/-- Criterion derived from one record (`rows.forEach((r, idx) => ...)`,
`part_002` lines 190–207): `none` when the record is skipped because
criterion id, name, section and description are all empty. -/
def critOfRow (idx : Nat) (r : SheetRow) : Option Criterion :=
  let group := jsTrim (fld r "section")
  let name := jsTrim (fld r "criterion")
  let description := jsTrim (fld r "description")
  let filledBy := jsTrim (fld2 r "filled_by" "filledBy")
  let criterionId := jsTrim (fld2 r "criterion_id" "criterionId")
  if criterionId = "" ∧ name = "" ∧ group = "" ∧ description = "" then none
  else some
    { id := if criterionId = "" then "row_" ++ toString idx else criterionId
      name := if name = "" then "Критерий " ++ toString (idx + 1) else name
      description := some description
      filledBy := some filledBy
      group := if group = "" then MISC_GROUP else group }

/-- The cell for one (record, course) pair (`part_002` lines 208–219):
emitted unconditionally, text trimmed, images newline-split, trimmed,
filtered and normalized. -/
def cellOfCourse (r : SheetRow) (critId cid : String) : Cell :=
  let text := jsTrim (fld r (cid ++ "_text"))
  let imagesRaw := jsTrim (fld r (cid ++ "_images"))
  let images :=
    if imagesRaw = "" then []
    else ((splitLines imagesRaw).map jsTrim).filter (· ≠ "") |>.map
      fun url => Img.mk (normalizeImageUrl url) none
  { courseId := cid, criterionId := critId, text := text, images := images }

/-- The criteria list before the identity-row synthesis step. -/
def rowCriteria (rows : List SheetRow) : List Criterion :=
  rows.enum.filterMap fun p => critOfRow p.1 p.2

/-- The synthesized non-collapsible course-identity row. -/
def metaCriterion : Criterion :=
  { id := COURSE_CRIT_ID, name := "Курс", description := none, filledBy := none,
    group := COURSE_GROUP }

/-- `rowsToMatrix` from `src/unnamed/part_002` lines 170–232. -/
def rowsToMatrix (rows : List SheetRow) : MatrixData :=
  let courseIds := sortByLe courseLe (courseKeys rows)
  let courses : List Course :=
    courseIds.enum.map fun p => ⟨p.2, "Курс " ++ toString (p.1 + 1)⟩
  let criteria0 := rowCriteria rows
  let cells := rows.enum.flatMap fun p =>
    match critOfRow p.1 p.2 with
    | some c => courseIds.map (cellOfCourse p.2 c.id)
    | none => []
  let criteria :=
    if criteria0.any (fun c => c.id == COURSE_CRIT_ID) then criteria0
    else metaCriterion :: criteria0
  ⟨criteria, courses, cells⟩

/-! ### Edit/Sync controller (`part_002` `saveCell`, lines 448–531) -/

/-- `"" ? ... : []` on the image draft, then newline split / trim / filter:
the `images: string[]` array of the outbound payload (raw, unnormalized). -/
def payloadImages (imagesLines : String) : List String :=
  ((splitLines imagesLines).map jsTrim).filter (· ≠ "")

/-- The images stored locally: the payload lines, each normalized. -/
def parseImages (imagesLines : String) : List Img :=
  (payloadImages imagesLines).map fun url => Img.mk (normalizeImageUrl url) none

/-- The local, synchronous part of `saveCell`: find the cell for the pair
and overwrite it wholesale, else append. -/
def saveCellLocal (cells : List Cell) (courseId criterionId text imagesLines : String) :
    List Cell :=
  let cell : Cell :=
    { courseId := courseId, criterionId := criterionId, text := text,
      images := parseImages imagesLines }
  match cells.findIdx? fun c => c.courseId == courseId && c.criterionId == criterionId with
  | some idx => cells.set idx cell
  | none => cells ++ [cell]

/-- The outbound `upsertCell` POST body. -/
structure WriteReq where
  action : String
  apiKey : String
  tab : String
  courseId : String
  criterionId : String
  criterion : String
  text : String
  images : List String
  updatedBy : String
deriving DecidableEq, Repr

/-- The remote's parsed JSON reply shape `{ok, error?}`. -/
structure GasResp where
  ok : Option Bool
  error : Option String
deriving DecidableEq, Repr

/-- Outcome of one `fetch`: a reply body (`none` when the text is not
JSON), or a network error / 12-second timeout rejection. -/
inductive RemoteResult where
  | response (body : Option GasResp)
  | failure
deriving DecidableEq, Repr

/-- The environment a `saveCell` call runs against: the remote endpoint and
the user's answer to the one `window.prompt` (`none` = cancelled). -/
structure SaveEnv where
  remote : WriteReq → RemoteResult
  promptResult : Option String

/-- Observable side effects of the sync flow, in order of occurrence. -/
inductive SaveEvent where
  | send (r : WriteReq)
  | promptKey
  | persistKey (k : String)
  | warnLogged
deriving DecidableEq, Repr

/-- Component state touched by `saveCell`: the cell list and the
`gs_api_key` local-storage slot (`""` = unset, as `getApiKey` returns). -/
structure AppState where
  cells : List Cell
  apiKey : String
deriving DecidableEq, Repr

/-- `json.error` is a string containing `"UNAUTHORIZED"` case-insensitively
(`json.error.toUpperCase().includes("UNAUTHORIZED")`). -/
def isUnauthorized (body : Option GasResp) : Bool :=
  match body with
  | some j =>
    match j.error with
    | some e => containsSubstr (jsToUpper e) "UNAUTHORIZED"
    | none => false
  | none => false

/-- The `upsertCell` payload built by `saveCell`. -/
def payloadOf (st : AppState) (sheetName critName updatedBy : String)
    (courseId criterionId draftText draftImages : String) : WriteReq :=
  { action := "upsertCell", apiKey := st.apiKey, tab := sheetName,
    courseId := courseId, criterionId := criterionId, criterion := critName,
    text := draftText, images := payloadImages draftImages,
    updatedBy := updatedBy }

/-- The remote section of `saveCell` (`part_002` lines 498–529): POST the
payload; on an UNAUTHORIZED reply prompt once, persist a non-empty answer,
and retry exactly once with it; network failures only log a warning.
Returns the persisted key (if any) and the event trace. -/
def remoteFlow (payload : WriteReq) (env : SaveEnv) : Option String × List SaveEvent :=
  match env.remote payload with
  | .failure => (none, [.send payload, .warnLogged])
  | .response body =>
    if isUnauthorized body then
      match env.promptResult with
      | some k =>
        if k = "" then (none, [.send payload, .promptKey])
        else (some k, [.send payload, .promptKey, .persistKey k,
                       .send { payload with apiKey := k }])
      | none => (none, [.send payload, .promptKey])
    else (none, [.send payload])

/-- `saveCell` from `src/unnamed/part_002` lines 453–531: synchronous local
whole-record replacement, then the best-effort remote flow.  `sheetName`,
`critName` and `updatedBy` stand for `tabToSheet[activeTab]`,
`crit?.name || ""` and the stored user name. -/
def saveCell (st : AppState) (sheetName critName updatedBy : String)
    (courseId criterionId draftText draftImages : String) (env : SaveEnv) :
    AppState × List SaveEvent :=
  let cells' := saveCellLocal st.cells courseId criterionId draftText draftImages
  let payload := payloadOf st sheetName critName updatedBy courseId criterionId
    draftText draftImages
  let r := remoteFlow payload env
  (⟨cells', r.1.getD st.apiKey⟩, r.2)

/-- `getCell` (`part_002` line 448): first cell matching the pair. -/
def getCell (cells : List Cell) (courseId criterionId : String) : Option Cell :=
  cells.find? fun c => c.courseId == courseId && c.criterionId == criterionId

/-! ### Row Parser envelope handling (`part_002` `fetchGViz`, lines 110–129) -/

/-- Characters of the literal part of
`/google\.visualization\.Query\.setResponse\(([\s\S]+)\)/`. -/
def setResponseLit : List Char := "google.visualization.Query.setResponse(".data

/-- The greedy `([\s\S]+)\)` tail: everything up to the last `)`,
which must be nonempty. -/
def lastParenCapture (l : List Char) : Option (List Char) :=
  match l.reverse.dropWhile (· ≠ ')') with
  | [] => none
  | _ :: restRev => if restRev.isEmpty then none else some restRev.reverse

/-- The embedded-JSON envelope extraction of `part_002`'s `fetchGViz`:
`text.match(/google\.visualization\.Query\.setResponse\(([\s\S]+)\)/)`. -/
def extractGVizJson (txt : String) : Option String :=
  match findLit setResponseLit txt.data with
  | none => none
  | some rest => (lastParenCapture rest).map List.asString

/-- The parse stage of `part_002`'s `fetchGViz` after the HTTP round trip,
with `JSON.parse` plus the cols/rows-to-records conversion abstracted as
`jsonRows` (an exception inside it rejects the promise).  When the envelope
regex does not match, the source returns `[]` — no error. -/
def parseGViz (jsonRows : String → Option (List SheetRow)) (txt : String) :
    Except String (List SheetRow) :=
  match extractGVizJson txt with
  | none => .ok []
  | some s =>
    match jsonRows s with
    | some rows => .ok rows
    | none => .error "JSON.parse"

end Core

namespace Proto

/-- `Criterion` as built by `CompetitorMatrix.tsx` / `part_003`: empty
strings become `undefined` (`none`), the group is optional. -/
structure Criterion where
  id : String
  name : String
  group : Option String
  description : Option String
  filledBy : Option String
deriving DecidableEq, Repr

/-- `Cell` as built by `CompetitorMatrix.tsx` / `part_003`:
`text: text || undefined`. -/
structure Cell where
  courseId : String
  criterionId : String
  text : Option String
  images : List Core.Img
deriving DecidableEq, Repr

/-- `MatrixData` of the tsx/`part_003` variant. -/
structure MatrixData where
  criteria : List Criterion
  courses : List Core.Course
  cells : List Cell
deriving DecidableEq, Repr

/-- The tsx/`part_003` per-record criterion: records whose `criterion`
field is empty are skipped outright (`if (!name) return;`); a row with
section `0. Курс` named `Курс` becomes the identity row; otherwise the id
defaults to `gen-<idx+1>`. -/
def critOfRow (idx : Nat) (r : Core.SheetRow) : Option Criterion :=
  let group := Core.jsTrim (Core.fld r "section")
  let name := Core.jsTrim (Core.fld r "criterion")
  let description := Core.jsTrim (Core.fld r "description")
  let filledBy := Core.jsTrim (Core.fld r "filled_by")
  let rawId := Core.jsTrim (Core.fld r "criterion_id")
  if name = "" then none
  else
    let isCourseRow := group = Core.COURSE_GROUP ∧ name = "Курс"
    some
      { id := if isCourseRow then Core.COURSE_CRIT_ID
              else if rawId = "" then "gen-" ++ toString (idx + 1) else rawId
        name := name
        group := if isCourseRow then some Core.COURSE_GROUP
                 else if group = "" then none else some group
        description := if description = "" then none else some description
        filledBy := if filledBy = "" then none else some filledBy }

/-- The tsx/`part_003` cell for one (record, course) pair: text untrimmed,
and the cell is emitted only when text or images are nonempty
(`if (text || images.length) cells.push(...)`).  The image normalizer is a
parameter: the two source files bind different (and in `part_003`,
shadowed) `normalizeImageUrl` declarations. -/
def cellOfCourse (normalize : String → String) (r : Core.SheetRow)
    (critId cid : String) : Option Cell :=
  let text := Core.fld r (cid ++ "_text")
  let imagesRaw := Core.fld r (cid ++ "_images")
  let images := ((Core.splitLines imagesRaw).map Core.jsTrim).filter (· ≠ "") |>.map
    fun url => Core.Img.mk (normalize url) none
  if text ≠ "" ∨ images ≠ [] then
    some ⟨cid, critId, (if text = "" then none else some text), images⟩
  else none

/-- `rowsToMatrix` from `src/src/CompetitorMatrix.tsx` lines 87–120 and
`src/unnamed/part_003` lines 80–113: same course derivation as `part_002`,
but name-less records are skipped, cells are emitted only when nonempty,
and no `course_meta` row is ever synthesized. -/
def rowsToMatrix (normalize : String → String) (rows : List Core.SheetRow) :
    MatrixData :=
  let courseIds := Core.sortByLe Core.courseLe (Core.courseKeys rows)
  let courses : List Core.Course :=
    courseIds.enum.map fun p => ⟨p.2, "Курс " ++ toString (p.1 + 1)⟩
  let criteria := rows.enum.filterMap fun p => critOfRow p.1 p.2
  let cells := rows.enum.flatMap fun p =>
    match critOfRow p.1 p.2 with
    | some c => courseIds.filterMap (cellOfCourse normalize p.2 c.id)
    | none => []
  ⟨criteria, courses, cells⟩

/-- The tsx brace-based envelope handling (`CompetitorMatrix.tsx` lines
51–64): `indexOf("{")` / `lastIndexOf("}")`; when either is `-1` the
promise rejects with `GViz: JSON not found`, otherwise the slice between
them is handed to `JSON.parse` (abstracted as `jsonRows`). -/
def parseGVizTsx (jsonRows : String → Option (List Core.SheetRow)) (txt : String) :
    Except String (List Core.SheetRow) :=
  match txt.data.findIdx? (· = '{'), txt.data.reverse.findIdx? (· = '}') with
  | some s, some k =>
    let e := txt.data.length - 1 - k
    match jsonRows ⟨(txt.data.drop s).take (e + 1 - s)⟩ with
    | some rows => .ok rows
    | none => .error "JSON.parse"
  | _, _ => .error "GViz: JSON not found"

/-- `storageKey` from tsx/`part_003`: `` `${base}:${activeTab || "__na__"}` ``. -/
def storageKey (activeTab base : String) : String :=
  base ++ ":" ++ (if activeTab = "" then "__na__" else activeTab)

/-- Local storage modelled as key/value pairs; `JSON.stringify` of the
hidden-course array is abstracted to the list itself. -/
abbrev Store := List (String × List String)

/-- Assoc-list update for the store. -/
def storeSet (store : Store) (k : String) (v : List String) : Store :=
  (k, v) :: store.filter fun p => p.1 ≠ k

/-- Component state touched by the hide-course handler. -/
structure UIState where
  data : MatrixData
  hiddenCourses : List String
  store : Store
deriving Repr

/-- The `onHide` handler of `CourseHeaderCell` in
`src/src/CompetitorMatrix.tsx` lines 520–525: append the course id to the
hidden set and persist it — under the FIXED key `"hiddenCourseIds"`,
not the tab-scoped `storageKey` the same component reads at load time. -/
def onHideCourse (st : UIState) (courseId : String) : UIState :=
  let next := st.hiddenCourses ++ [courseId]
  { st with hiddenCourses := next,
            store := storeSet st.store "hiddenCourseIds" next }

end Proto

/-! ### Spec-side definitions and concrete inputs used by the claims -/

/-- The first maximal digit run of a string (empty when no digit occurs). -/
def firstDigitRun : List Char → List Char
  | [] => []
  | c :: cs => if c.isDigit then (c :: cs).takeWhile Char.isDigit else firstDigitRun cs

/-- The sort key claim C3 describes, following the spec's words ("the
leading digit run embedded in the identifier, non-numeric ids sorting
as 0"), to be compared with the implementation's `Core.keyNum`. -/
def specLeadingRunKey (s : String) : Nat :=
  (firstDigitRun s.data).foldl (fun acc c => 10 * acc + (c.toNat - 48)) 0

/-- The course ordering claim C3 asserts: leading-digit-run value first,
lexicographic tie-break. -/
def specCourseLe (a b : String) : Bool :=
  decide (specLeadingRunKey a < specLeadingRunKey b) ||
    (decide (specLeadingRunKey a = specLeadingRunKey b) && Core.charListLe a.data b.data)

/-- Claim C1's single flat record. -/
def rowsC1 : List Core.SheetRow :=
  [[("criterion_id", "k1"), ("c1_text", "hello"),
    ("c1_images", "http://x/a.png\nhttp://x/b.png")]]

/-- The cell claim C1 expects from `rowsC1`. -/
def cellC1 : Core.Cell :=
  { courseId := "c1", criterionId := "k1", text := "hello",
    images := [⟨"http://x/a.png", none⟩, ⟨"http://x/b.png", none⟩] }

/-- An input with an ordinary named criterion and no course-identity row. -/
def rowsNoMeta : List Core.SheetRow := [[("criterion", "A")]]

/-- Claim C3's example column keys, as one record. -/
def rowsC3 : List Core.SheetRow := [[("c2_text", ""), ("c10_text", ""), ("c1_text", "")]]

/-- Course ids with two digit runs, separating "all digits concatenated"
(`a1b2` ↦ 12) from "leading digit run" (`a1b2` ↦ 1). -/
def rowsMultiRun : List Core.SheetRow := [[("a1b2_text", ""), ("a3_text", "")]]

/-- Two records carrying the same explicit `criterion_id`. -/
def rowsDupId : List Core.SheetRow :=
  [[("criterion_id", "k1"), ("c1_text", "a")],
   [("criterion_id", "k1"), ("c1_text", "b")]]

/-- A concrete matrix for the hide-course frame theorem. -/
def uiStart : Proto.UIState :=
  { data := ⟨[⟨"x", "X", none, none, none⟩], [⟨"c1", "Курс 1"⟩], []⟩,
    hiddenCourses := [], store := [] }

/-- A JSON stage that parses nothing, for exercising envelope handling. -/
def jsonNone : String → Option (List Core.SheetRow) := fun _ => none

/-- A remote that answers every request with an UNAUTHORIZED error body. -/
def envUnauthorized : Core.SaveEnv :=
  { remote := fun _ => .response (some ⟨some false, some "Unauthorized: key required"⟩),
    promptResult := some "sek" }

/-- The non-idempotence input for the URL normalizer. -/
def urlAmp : String := "https://h/file/d/a&id=b"

/-- A benign drive URL whose extracted id has no `&` and no `/`. -/
def urlPlain : String := "https://h/file/d/abc"

/-- The characters of `Core.drivePre`, for stepping the scanners over it. -/
def drivePreChars : List Char :=
  ['h', 't', 't', 'p', 's', ':', '/', '/', 'd', 'r', 'i', 'v', 'e', '.', 'g', 'o',
   'o', 'g', 'l', 'e', '.', 'c', 'o', 'm', '/', 'u', 'c', '?', 'e', 'x', 'p', 'o',
   'r', 't', '=', 'v', 'i', 'e', 'w', '&', 'i', 'd', '=']

/-- Whether an `Except` result is an error. -/
def isErrorResult {ε α : Type} : Except ε α → Bool
  | .error _ => true
  | .ok _ => false

/-! ## Theorems -/

theorem find?_eq_of_getElem {α} {p : α → Bool} :
    ∀ (l : List α) (i : Nat) (hi : i < l.length), p (l.get ⟨i, hi⟩) = true →
      (∀ j (hj : j < i), p (l.get ⟨j, Nat.lt_trans hj hi⟩) = false) →
      l.find? p = some (l.get ⟨i, hi⟩) := by
  intro l
  induction l with
  | nil => intro i hi; exact absurd hi (Nat.not_lt_zero i)
  | cons x xs ih =>
    intro i hi hp hbefore
    cases i with
    | zero => simp only [List.get] at hp ⊢; simp [List.find?_cons, hp]
    | succ i =>
      have hx : p x = false := hbefore 0 (Nat.succ_pos i)
      simp only [List.get] at hp ⊢
      simp only [List.find?_cons, hx]
      exact ih i (Nat.lt_of_succ_lt_succ hi) hp
        (fun j hj => hbefore (j + 1) (Nat.succ_lt_succ hj))

theorem find?_set_of_findIdx {α} {p : α → Bool} {l : List α} {i : Nat} {x : α}
    (hfound : l.findIdx? p = some i) (hx : p x = true) :
    (l.set i x).find? p = some x := by
  rw [List.findIdx?_eq_some_iff_getElem] at hfound
  obtain ⟨hlen, _, hbefore⟩ := hfound
  have hlen' : i < (l.set i x).length := by rw [List.length_set]; exact hlen
  have hb : ∀ j (hj : j < i), p ((l.set i x).get ⟨j, Nat.lt_trans hj hlen'⟩) = false := by
    intro j hj
    have hne : i ≠ j := (Nat.ne_of_lt hj).symm
    have hjl : j < l.length := by
      have h2 := Nat.lt_trans hj hlen'
      rwa [List.length_set] at h2
    have hget : (l.set i x).get ⟨j, Nat.lt_trans hj hlen'⟩ = l.get ⟨j, hjl⟩ := by
      simp only [List.get_eq_getElem]
      exact List.getElem_set_ne hne _
    rw [hget, List.get_eq_getElem]
    exact Bool.eq_false_iff.mpr (hbefore j hj)
  have hpi : p ((l.set i x).get ⟨i, hlen'⟩) = true := by
    rw [List.get_eq_getElem, List.getElem_set_self]
    exact hx
  have hres := find?_eq_of_getElem (l.set i x) i hlen' hpi hb
  rw [List.get_eq_getElem, List.getElem_set_self] at hres
  exact hres

theorem find?_append_singleton {α} {p : α → Bool} {l : List α} {x : α}
    (hnone : l.findIdx? p = none) (hx : p x = true) :
    (l ++ [x]).find? p = some x := by
  rw [List.findIdx?_eq_none_iff] at hnone
  rw [List.find?_append]
  have : l.find? p = none := List.find?_eq_none.mpr fun a ha => by
    rw [hnone a ha]; exact Bool.false_ne_true
  rw [this, Option.none_or]
  simp [List.find?_cons, hx]

theorem getCell_saveCellLocal (cells : List Core.Cell)
    (courseId criterionId text imagesLines : String) :
    Core.getCell (Core.saveCellLocal cells courseId criterionId text imagesLines)
      courseId criterionId
      = some ⟨courseId, criterionId, text, Core.parseImages imagesLines⟩ := by
  unfold Core.saveCellLocal Core.getCell
  have hx : (fun c : Core.Cell => c.courseId == courseId && c.criterionId == criterionId)
      (⟨courseId, criterionId, text, Core.parseImages imagesLines⟩ : Core.Cell) = true := by
    simp
  cases hidx : cells.findIdx?
      (fun c => c.courseId == courseId && c.criterionId == criterionId) with
  | some idx => simp only [hidx]; exact find?_set_of_findIdx hidx hx
  | none => simp only [hidx]; exact find?_append_singleton hidx hx

/-- C4: after any `saveCell(courseId, criterionId)` call the local cell
stored for the pair is exactly the draft-built cell — whole-record
replacement, so an empty image draft leaves an empty image list — and the
resulting cell list is identical under every remote environment (success,
failure, timeout, any prompt answer): no rollback on remote failure. -/
theorem c4_theorem (st : Core.AppState)
    (sheetName critName updatedBy courseId criterionId draftText draftImages : String)
    (env env' : Core.SaveEnv) :
    ((Core.saveCell st sheetName critName updatedBy courseId criterionId
        draftText draftImages env).1.cells
      = (Core.saveCell st sheetName critName updatedBy courseId criterionId
        draftText draftImages env').1.cells)
    ∧ Core.getCell (Core.saveCell st sheetName critName updatedBy courseId criterionId
        draftText draftImages env).1.cells courseId criterionId
      = some ⟨courseId, criterionId, draftText, Core.parseImages draftImages⟩ :=
  ⟨rfl, getCell_saveCellLocal st.cells courseId criterionId draftText draftImages⟩

/-- C1 (counterexample): on the claim's input — `criterion_id="k1"`,
`c1_text="hello"`, two image URLs, but no `criterion` name — the
`rowsToMatrix` of `CompetitorMatrix.tsx`/`part_003` skips the record
(`if (!name) return`) and emits no criterion and no cell at all, instead
of the one criterion `k1` and one cell the claim asserts. -/
theorem c1_counterexample :
    (Proto.rowsToMatrix Core.normalizeImageUrl rowsC1).criteria = []
    ∧ (Proto.rowsToMatrix Core.normalizeImageUrl rowsC1).cells = [] := by
  constructor <;> rfl

/-- C1 (amended): for the `part_002` Matrix Builder the property holds:
exactly one criterion with id `k1` (named `Критерий 1`, preceded in the
criteria list only by the synthesized `course_meta` row) and exactly one
cell `{courseId := c1, criterionId := k1, text := hello}` whose images are
the two normalized URLs in input order.  The tsx/`part_003` builder skips
the record because its `criterion` name field is empty. -/
theorem c1_theorem :
    ((Core.rowsToMatrix rowsC1).criteria.filter fun c => c.id == "k1").length = 1
    ∧ (Core.rowsToMatrix rowsC1).criteria.map (·.id) = [Core.COURSE_CRIT_ID, "k1"]
    ∧ (Core.rowsToMatrix rowsC1).cells = [cellC1] := by
  refine ⟨by decide, by decide, by decide⟩

/-- C2 (counterexample): on an input with a single ordinary criterion and
no course-identity row, the tsx/`part_003` `rowsToMatrix` synthesizes
nothing: the criteria list is `[gen-1]`, so its first element does not have
id `course_meta` as the claim asserts. -/
theorem c2_counterexample :
    (Proto.rowsToMatrix Core.normalizeImageUrl rowsNoMeta).criteria.map (·.id) = ["gen-1"]
    ∧ ((Proto.rowsToMatrix Core.normalizeImageUrl rowsNoMeta).criteria.head?).map (·.id)
        ≠ some Core.COURSE_CRIT_ID := by
  refine ⟨by decide, by decide⟩

/-- C2 (amended): for the `part_002` builder the claim holds: whenever no
record yields a criterion with the reserved id, the returned criteria list
starts with the synthesized `course_meta` criterion, assigned to the
course-identity group `0. Курс`.  The tsx/`part_003` builder never
synthesizes the row. -/
theorem c2_theorem (rows : List Core.SheetRow)
    (h : (Core.rowCriteria rows).all (fun c => c.id != Core.COURSE_CRIT_ID) = true) :
    (Core.rowsToMatrix rows).criteria.head? = some Core.metaCriterion := by
  have hany : (Core.rowCriteria rows).any (fun c => c.id == Core.COURSE_CRIT_ID) = false := by
    rw [List.all_eq_true] at h
    rw [Bool.eq_false_iff]
    intro hc
    rw [List.any_eq_true] at hc
    obtain ⟨c, hm, hcid⟩ := hc
    have hne := h c hm
    simp only [bne_iff_ne, ne_eq] at hne
    exact hne (by simpa using hcid)
  unfold Core.rowsToMatrix
  simp only [hany, Bool.false_eq_true, if_false, List.head?_cons]

/-- Witness for C2 at the empty input. -/
theorem c2_witness :
    ((Core.rowCriteria ([] : List Core.SheetRow)).all
        (fun c => c.id != Core.COURSE_CRIT_ID) = true)
    ∧ (Core.rowsToMatrix ([] : List Core.SheetRow)).criteria.head?
        = some Core.metaCriterion :=
  ⟨by decide, c2_theorem [] (by decide)⟩

/-- C3 (counterexample): for column keys `a1b2_text`, `a3_text` the code
sorts by the integer formed from ALL digit characters
(`a1b2 ↦ 12`, `a3 ↦ 3`, so `a3` first), while the claimed
leading-digit-run ordering (`a1b2 ↦ 1`, `a3 ↦ 3`) puts `a1b2` first: the
orders differ. -/
theorem c3_counterexample :
    (Core.rowsToMatrix rowsMultiRun).courses.map (·.id) = ["a3", "a1b2"]
    ∧ Core.sortByLe specCourseLe (Core.courseKeys rowsMultiRun) = ["a1b2", "a3"]
    ∧ (Core.rowsToMatrix rowsMultiRun).courses.map (·.id)
        ≠ Core.sortByLe specCourseLe (Core.courseKeys rowsMultiRun) := by
  refine ⟨by decide, by decide, by decide⟩

/-- C5 (counterexample): the normalizer is not idempotent.  For
`https://h/file/d/a&id=b` the first pass extracts the `/file/d/` capture
`a&id=b` (the `[^/]+` class admits `&`), producing
`.../uc?export=view&id=a&id=b`; the second pass re-extracts only `a`. -/
theorem c5_counterexample :
    Core.normalizeImageUrl (Core.normalizeImageUrl urlAmp)
      ≠ Core.normalizeImageUrl urlAmp := by decide

theorem m1scan_noslash : ∀ l : List Char, (∀ c ∈ l, c ≠ '/') → Core.m1scan l = none := by
  intro l
  induction l with
  | nil => intro _; rfl
  | cons c cs ih =>
    intro h
    have hc : c ≠ '/' := h c (List.mem_cons_self c cs)
    have htl : Core.takeLit Core.fileDLit (c :: cs) = none := by
      show Core.takeLit ('/' :: ['f', 'i', 'l', 'e', '/', 'd', '/']) (c :: cs) = none
      unfold Core.takeLit
      rw [if_neg (fun he => hc he.symm)]
    rw [Core.m1scan, htl]
    exact ih fun x hx => h x (List.mem_cons_of_mem c hx)

theorem m1scan_pre (t : List Char) : Core.m1scan (drivePreChars ++ t) = Core.m1scan t := rfl

theorem m2scan_pre (t : List Char) (hne : t ≠ [])
    (hamp : t.takeWhile (fun c => c ≠ '&') = t) :
    Core.m2scan (drivePreChars ++ t) = some t := by
  have step : Core.m2scan (drivePreChars ++ t)
      = if (t.takeWhile (fun c => c ≠ '&')).isEmpty then Core.m2scan ('i' :: 'd' :: '=' :: t)
        else some (t.takeWhile (fun c => c ≠ '&')) := rfl
  rw [step, hamp]
  cases t with
  | nil => exact absurd rfl hne
  | cons c cs => rw [if_neg (by simp [List.isEmpty])]

theorem m1scan_some_ne_nil : ∀ {l cap : List Char}, Core.m1scan l = some cap → cap ≠ [] := by
  intro l
  induction l with
  | nil => intro cap h; exact absurd h (by simp [Core.m1scan])
  | cons c cs ih =>
    intro cap h
    rw [Core.m1scan] at h
    cases htl : Core.takeLit Core.fileDLit (c :: cs) with
    | some rest =>
      rw [htl] at h
      simp only at h
      by_cases he : (rest.takeWhile (fun ch => ch ≠ '/')).isEmpty
      · rw [if_pos he] at h
        exact ih h
      · rw [if_neg he] at h
        cases h
        intro hnil
        rw [hnil] at he
        exact he rfl
    | none =>
      rw [htl] at h
      exact ih h

theorem m2scan_some_ne_nil : ∀ {l cap : List Char}, Core.m2scan l = some cap → cap ≠ [] := by
  intro l
  induction l with
  | nil => intro cap h; exact absurd h (by simp [Core.m2scan])
  | cons c cs ih =>
    intro cap h
    rw [Core.m2scan] at h
    by_cases hc : c = '?' ∨ c = '&'
    · rw [if_pos hc] at h
      cases htl : Core.takeLit ['i', 'd', '='] cs with
      | some rest =>
        rw [htl] at h
        simp only at h
        by_cases he : (rest.takeWhile (fun ch => ch ≠ '&')).isEmpty
        · rw [if_pos he] at h
          exact ih h
        · rw [if_neg he] at h
          cases h
          intro hnil
          rw [hnil] at he
          exact he rfl
      | none =>
        rw [htl] at h
        exact ih h
    · rw [if_neg hc] at h
      exact ih h

theorem extractDriveId_ne_empty {u i : String} (h : Core.extractDriveId u = some i) :
    u ≠ "" := by
  intro he
  rw [he] at h
  exact Option.noConfusion h

theorem extractDriveId_data_ne_nil {u i : String} (h : Core.extractDriveId u = some i) :
    i.data ≠ [] := by
  unfold Core.extractDriveId at h
  cases h1 : Core.m1scan u.data with
  | some cap =>
    rw [h1] at h
    cases h
    exact m1scan_some_ne_nil h1
  | none =>
    rw [h1] at h
    cases h2 : Core.m2scan u.data with
    | some cap =>
      rw [h2] at h
      cases h
      exact m2scan_some_ne_nil h2
    | none =>
      rw [h2] at h
      exact Option.noConfusion h

theorem extract_drivePre_append (i : String) (hne : i.data ≠ [])
    (hamp : ∀ c ∈ i.data, c ≠ '&') (hsl : ∀ c ∈ i.data, c ≠ '/') :
    Core.extractDriveId (Core.drivePre ++ i) = some i := by
  have h1 : Core.m1scan ((Core.drivePre ++ i).data) = none := by
    show Core.m1scan (drivePreChars ++ i.data) = none
    rw [m1scan_pre]
    exact m1scan_noslash i.data hsl
  have h2 : Core.m2scan ((Core.drivePre ++ i).data) = some i.data := by
    show Core.m2scan (drivePreChars ++ i.data) = some i.data
    exact m2scan_pre i.data hne (List.takeWhile_eq_self_iff.mpr
      (by intro x hx; simpa using hamp x hx))
  unfold Core.extractDriveId
  rw [h1, h2]

theorem normalize_of_extract_none {u : String} (h : Core.extractDriveId u = none) :
    Core.normalizeImageUrl u = u := by
  unfold Core.normalizeImageUrl
  split
  · rfl
  · rw [h]

theorem normalize_of_extract_some {u i : String} (h : Core.extractDriveId u = some i)
    (hu : u ≠ "") : Core.normalizeImageUrl u = Core.drivePre ++ i := by
  unfold Core.normalizeImageUrl
  rw [if_neg hu, h]

theorem drivePre_append_ne_empty (i : String) : Core.drivePre ++ i ≠ "" := by
  intro h
  have hd : (Core.drivePre ++ i).data = ("" : String).data := by rw [h]
  rw [show (Core.drivePre ++ i).data = drivePreChars ++ i.data from rfl] at hd
  simp [drivePreChars] at hd

theorem not_mem_of_contains_false {c : Char} {l : List Char}
    (h : l.contains c = false) : c ∉ l := by
  intro hm
  have ht : l.contains c = true := by
    simpa [List.contains] using List.elem_iff.mpr hm
  rw [h] at ht
  exact Bool.false_ne_true ht

/-- C5 (amended): `normalizeImageUrl` is idempotent on every input whose
extracted drive id — when one exists — contains neither `&` nor `/`:
id-free inputs are fixed points, and a benign id re-extracts unchanged from
the rewritten URL's own `&id=` parameter. -/
theorem c5_theorem (u : String)
    (h : ((Core.extractDriveId u).all fun i =>
        !i.data.contains '&' && !i.data.contains '/') = true) :
    Core.normalizeImageUrl (Core.normalizeImageUrl u) = Core.normalizeImageUrl u := by
  cases hx : Core.extractDriveId u with
  | none =>
    rw [normalize_of_extract_none hx, normalize_of_extract_none hx]
  | some i =>
    rw [hx, Option.all_some, Bool.and_eq_true, Bool.not_eq_true', Bool.not_eq_true'] at h
    obtain ⟨hamp, hsl⟩ := h
    have hampm : ∀ c ∈ i.data, c ≠ '&' := by
      intro c hc he
      exact not_mem_of_contains_false hamp (he ▸ hc)
    have hslm : ∀ c ∈ i.data, c ≠ '/' := by
      intro c hc he
      exact not_mem_of_contains_false hsl (he ▸ hc)
    rw [normalize_of_extract_some hx (extractDriveId_ne_empty hx)]
    have hext := extract_drivePre_append i (extractDriveId_data_ne_nil hx) hampm hslm
    rw [normalize_of_extract_some hext (drivePre_append_ne_empty i)]

/-- Witness for C5 at `https://h/file/d/abc` (id `abc`: no `&`, no `/`). -/
theorem c5_witness :
    (((Core.extractDriveId urlPlain).all fun i =>
        !i.data.contains '&' && !i.data.contains '/') = true)
    ∧ Core.normalizeImageUrl (Core.normalizeImageUrl urlPlain)
        = Core.normalizeImageUrl urlPlain :=
  ⟨by decide, c5_theorem urlPlain (by decide)⟩

/-- C8 (counterexample): on a response body without the
`google.visualization.Query.setResponse(...)` envelope, `part_002`'s
`fetchGViz` returns the EMPTY record list (`if (!m) return []`), not a
parse error as the claim asserts. -/
theorem c8_counterexample :
    Core.parseGViz jsonNone "hello" = .ok []
    ∧ isErrorResult (Core.parseGViz jsonNone "hello") = false :=
  ⟨rfl, rfl⟩

/-- C8 (amended): envelope handling diverges between the variants: the
`part_002` parser yields an empty record list whenever the
`setResponse(` literal does not occur in the response text, while the
tsx/`part_003` parser rejects with `GViz: JSON not found` whenever the text
contains no `{` (it checks only braces, not the call-expression itself). -/
theorem c8_theorem :
    (∀ (jp : String → Option (List Core.SheetRow)) (txt : String),
        Core.findLit Core.setResponseLit txt.data = none →
        Core.parseGViz jp txt = .ok [])
    ∧ (∀ (jp : String → Option (List Core.SheetRow)) (txt : String),
        txt.data.contains '{' = false →
        Proto.parseGVizTsx jp txt = .error "GViz: JSON not found") := by
  constructor
  · intro jp txt h
    unfold Core.parseGViz Core.extractGVizJson
    rw [h]
  · intro jp txt h
    have hmem : ('{' : Char) ∉ txt.data := by
      intro hm
      have : txt.data.contains '{' = true := by
        simpa [List.contains] using List.elem_iff.mpr hm
      rw [h] at this
      exact Bool.false_ne_true this
    have hidx : txt.data.findIdx? (· = '{') = none := by
      rw [List.findIdx?_eq_none_iff]
      intro x hx
      simp only [decide_eq_false_iff_not]
      intro hxe
      exact hmem (hxe ▸ hx)
    unfold Proto.parseGVizTsx
    rw [hidx]

/-- Witness for C8 at concrete envelope-free inputs. -/
theorem c8_witness :
    (Core.findLit Core.setResponseLit "hello".data = none
      ∧ Core.parseGViz jsonNone "hello" = .ok [])
    ∧ ("nope".data.contains '{' = false
      ∧ Proto.parseGVizTsx jsonNone "nope" = .error "GViz: JSON not found") :=
  ⟨⟨by decide, c8_theorem.1 jsonNone "hello" (by decide)⟩,
   ⟨by decide, c8_theorem.2 jsonNone "nope" (by decide)⟩⟩

/-- C6: when the remote answers the first `upsertCell` request with a body
whose error string contains `UNAUTHORIZED` case-insensitively and the user
supplies a non-empty credential at the prompt, the event trace is exactly
send–prompt–persist–retry: two outbound requests in total, the retry
carrying the credential, and the credential persisted (`setApiKey`) before
the retry is sent — hence independently of the retry's outcome, which the
code never inspects. -/
theorem c6_theorem (st : Core.AppState)
    (sheetName critName updatedBy courseId criterionId draftText draftImages : String)
    (env : Core.SaveEnv) (j : Core.GasResp) (k : String)
    (hresp : env.remote (Core.payloadOf st sheetName critName updatedBy courseId
        criterionId draftText draftImages) = .response (some j))
    (hunauth : Core.isUnauthorized (some j) = true)
    (hprompt : env.promptResult = some k) (hk : k ≠ "") :
    (Core.saveCell st sheetName critName updatedBy courseId criterionId draftText
        draftImages env).2
      = [.send (Core.payloadOf st sheetName critName updatedBy courseId criterionId
            draftText draftImages),
         .promptKey, .persistKey k,
         .send { Core.payloadOf st sheetName critName updatedBy courseId criterionId
            draftText draftImages with apiKey := k }]
    ∧ ((Core.saveCell st sheetName critName updatedBy courseId criterionId draftText
        draftImages env).2.countP fun e =>
          match e with | .send _ => true | _ => false) = 2
    ∧ (Core.saveCell st sheetName critName updatedBy courseId criterionId draftText
        draftImages env).1.apiKey = k := by
  have hflow : Core.remoteFlow (Core.payloadOf st sheetName critName updatedBy courseId
      criterionId draftText draftImages) env
      = (some k,
         [.send (Core.payloadOf st sheetName critName updatedBy courseId criterionId
            draftText draftImages),
          .promptKey, .persistKey k,
          .send { Core.payloadOf st sheetName critName updatedBy courseId criterionId
            draftText draftImages with apiKey := k }]) := by
    unfold Core.remoteFlow
    rw [hresp]
    simp [hunauth, hprompt, hk]
  refine ⟨?_, ?_, ?_⟩
  · show (Core.remoteFlow _ env).2 = _
    rw [hflow]
  · show ((Core.remoteFlow _ env).2.countP _) = 2
    rw [hflow]
    rfl
  · show ((Core.remoteFlow _ env).1.getD st.apiKey) = k
    rw [hflow]
    rfl

/-- Witness for C6: a remote that answers `{ok:false, error:"Unauthorized:
key required"}` and a user who types `sek`. -/
theorem c6_witness :
    ((Core.saveCell ⟨[], ""⟩ "tab" "crit" "anon" "c1" "k1" "t" "" envUnauthorized).2.countP
        fun e => match e with | .send _ => true | _ => false) = 2
    ∧ (Core.saveCell ⟨[], ""⟩ "tab" "crit" "anon" "c1" "k1" "t" "" envUnauthorized).1.apiKey
        = "sek" :=
  ⟨(c6_theorem ⟨[], ""⟩ "tab" "crit" "anon" "c1" "k1" "t" "" envUnauthorized
      ⟨some false, some "Unauthorized: key required"⟩ "sek" rfl (by decide) rfl
      (by decide)).2.1,
   (c6_theorem ⟨[], ""⟩ "tab" "crit" "anon" "c1" "k1" "t" "" envUnauthorized
      ⟨some false, some "Unauthorized: key required"⟩ "sek" rfl (by decide) rfl
      (by decide)).2.2⟩

theorem perm_insertSorted (le : String → String → Bool) (x : String) :
    ∀ l : List String, (Core.insertSorted le x l).Perm (x :: l) := by
  intro l
  induction l with
  | nil => exact List.Perm.refl _
  | cons y ys ih =>
    unfold Core.insertSorted
    by_cases h : le y x = true
    · rw [if_pos h]
      exact (ih.cons y).trans (List.Perm.swap x y ys)
    · rw [if_neg h]

theorem perm_sortByLe (le : String → String → Bool) :
    ∀ l : List String, (Core.sortByLe le l).Perm l := by
  intro l
  induction l with
  | nil => exact List.Perm.refl _
  | cons x xs ih =>
    unfold Core.sortByLe
    exact (perm_insertSorted le x _).trans (ih.cons x)

theorem pairwise_insertSorted {le : String → String → Bool}
    (htrans : ∀ a b c, le a b = true → le b c = true → le a c = true)
    (htot : ∀ a b, le a b = true ∨ le b a = true) (x : String) :
    ∀ l : List String, l.Pairwise (fun a b => le a b = true) →
      (Core.insertSorted le x l).Pairwise (fun a b => le a b = true) := by
  intro l
  induction l with
  | nil => intro _; exact List.pairwise_cons.mpr ⟨by simp, List.Pairwise.nil⟩
  | cons y ys ih =>
    intro hp
    rw [List.pairwise_cons] at hp
    obtain ⟨hy, hys⟩ := hp
    unfold Core.insertSorted
    by_cases h : le y x = true
    · rw [if_pos h]
      rw [List.pairwise_cons]
      refine ⟨?_, ih hys⟩
      intro z hz
      have hz' := (perm_insertSorted le x ys).mem_iff.mp hz
      rcases List.mem_cons.mp hz' with rfl | hzys
      · exact h
      · exact hy z hzys
    · rw [if_neg h]
      have hxy : le x y = true := by
        rcases htot x y with hxy | hyx
        · exact hxy
        · exact absurd hyx h
      rw [List.pairwise_cons]
      refine ⟨?_, List.pairwise_cons.mpr ⟨hy, hys⟩⟩
      intro z hz
      rcases List.mem_cons.mp hz with rfl | hzys
      · exact hxy
      · exact htrans x y z hxy (hy z hzys)

theorem pairwise_sortByLe {le : String → String → Bool}
    (htrans : ∀ a b c, le a b = true → le b c = true → le a c = true)
    (htot : ∀ a b, le a b = true ∨ le b a = true) :
    ∀ l : List String, (Core.sortByLe le l).Pairwise (fun a b => le a b = true) := by
  intro l
  induction l with
  | nil => exact List.Pairwise.nil
  | cons x xs ih => exact pairwise_insertSorted htrans htot x _ ih

theorem charListLe_total : ∀ a b : List Char, Core.charListLe a b = true ∨ Core.charListLe b a = true := by
  intro a
  induction a with
  | nil => intro b; left; rfl
  | cons x xs ih =>
    intro b
    cases b with
    | nil => right; rfl
    | cons y ys =>
      unfold Core.charListLe
      by_cases hxy : x = y
      · subst hxy
        rw [if_pos rfl, if_pos rfl]
        exact ih ys
      · rw [if_neg hxy, if_neg (Ne.symm hxy)]
        rcases lt_trichotomy x y with hlt | heq | hgt
        · left; exact decide_eq_true hlt
        · exact absurd heq hxy
        · right; exact decide_eq_true hgt

theorem charListLe_trans : ∀ a b c : List Char,
    Core.charListLe a b = true → Core.charListLe b c = true →
    Core.charListLe a c = true := by
  intro a
  induction a with
  | nil => intro b c _ _; rfl
  | cons x xs ih =>
    intro b c hab hbc
    cases b with
    | nil => exact absurd hab (by simp [Core.charListLe])
    | cons y ys =>
      cases c with
      | nil => exact absurd hbc (by simp [Core.charListLe])
      | cons z zs =>
        unfold Core.charListLe at hab hbc ⊢
        by_cases hxy : x = y
        · subst hxy
          rw [if_pos rfl] at hab
          by_cases hyz : x = z
          · subst hyz
            rw [if_pos rfl] at hbc
            rw [if_pos rfl]
            exact ih ys zs hab hbc
          · rw [if_neg hyz] at hbc
            rw [if_neg hyz]
            exact hbc
        · rw [if_neg hxy] at hab
          by_cases hyz : y = z
          · subst hyz
            rw [if_neg hxy]
            exact hab
          · rw [if_neg hyz] at hbc
            by_cases hxz : x = z
            · subst hxz
              exact absurd (lt_trans (of_decide_eq_true hab) (of_decide_eq_true hbc))
                (lt_irrefl x)
            · rw [if_neg hxz]
              exact decide_eq_true
                (lt_trans (of_decide_eq_true hab) (of_decide_eq_true hbc))

theorem courseLe_total : ∀ a b : String, Core.courseLe a b = true ∨ Core.courseLe b a = true := by
  intro a b
  unfold Core.courseLe
  rcases Nat.lt_trichotomy (Core.keyNum a) (Core.keyNum b) with hlt | heq | hgt
  · left
    rw [Bool.or_eq_true]
    left
    exact decide_eq_true hlt
  · rcases charListLe_total a.data b.data with hc | hc
    · left
      rw [Bool.or_eq_true]
      right
      rw [Bool.and_eq_true]
      exact ⟨decide_eq_true heq, hc⟩
    · right
      rw [Bool.or_eq_true]
      right
      rw [Bool.and_eq_true]
      exact ⟨decide_eq_true heq.symm, hc⟩
  · right
    rw [Bool.or_eq_true]
    left
    exact decide_eq_true hgt

theorem courseLe_trans : ∀ a b c : String,
    Core.courseLe a b = true → Core.courseLe b c = true → Core.courseLe a c = true := by
  intro a b c hab hbc
  unfold Core.courseLe at hab hbc ⊢
  rw [Bool.or_eq_true] at hab hbc ⊢
  rcases hab with hab | hab
  · rcases hbc with hbc | hbc
    · left
      exact decide_eq_true (Nat.lt_trans (of_decide_eq_true hab) (of_decide_eq_true hbc))
    · rw [Bool.and_eq_true] at hbc
      left
      exact decide_eq_true (of_decide_eq_true hbc.1 ▸ of_decide_eq_true hab)
  · rw [Bool.and_eq_true] at hab
    rcases hbc with hbc | hbc
    · left
      exact decide_eq_true ((of_decide_eq_true hab.1) ▸ of_decide_eq_true hbc)
    · rw [Bool.and_eq_true] at hbc
      right
      rw [Bool.and_eq_true]
      exact ⟨decide_eq_true ((of_decide_eq_true hab.1).trans (of_decide_eq_true hbc.1)),
             charListLe_trans _ _ _ hab.2 hbc.2⟩

theorem rowsToMatrix_courses (rows : List Core.SheetRow) :
    (Core.rowsToMatrix rows).courses
      = (Core.sortByLe Core.courseLe (Core.courseKeys rows)).enum.map
          (fun p => ⟨p.2, "Курс " ++ toString (p.1 + 1)⟩) := rfl

theorem coursesIds_eq (rows : List Core.SheetRow) :
    (Core.rowsToMatrix rows).courses.map (·.id)
      = Core.sortByLe Core.courseLe (Core.courseKeys rows) := by
  rw [rowsToMatrix_courses, List.map_map]
  have : ((fun c : Core.Course => c.id) ∘ fun p : Nat × String =>
      (⟨p.2, "Курс " ++ toString (p.1 + 1)⟩ : Core.Course)) = Prod.snd := by
    funext p
    rfl
  rw [this, List.enum_map_snd]

/-- C3 (amended): the course list is a permutation of the distinct
`_text`-stripped keys, sorted by the comparator the code actually uses —
the integer formed from ALL digit characters (`parseInt` of
`replace(/\D+/g,"")`, `0` when empty), tie-broken lexicographically — and
the i-th course is named `Курс (i+1)` by position; for keys
`{c2_text, c10_text, c1_text}` the order is `c1, c2, c10`. -/
theorem c3_theorem :
    (∀ rows : List Core.SheetRow,
      ((Core.rowsToMatrix rows).courses.map (·.id)).Perm (Core.courseKeys rows)
      ∧ ((Core.rowsToMatrix rows).courses.map (·.id)).Pairwise
          (fun a b => Core.courseLe a b = true)
      ∧ ∀ i (h : i < (Core.rowsToMatrix rows).courses.length),
          ((Core.rowsToMatrix rows).courses.get ⟨i, h⟩).name
            = "Курс " ++ toString (i + 1))
    ∧ (Core.rowsToMatrix rowsC3).courses.map (·.id) = ["c1", "c2", "c10"] := by
  refine ⟨fun rows => ⟨?_, ?_, ?_⟩, by decide⟩
  · rw [coursesIds_eq]
    exact perm_sortByLe Core.courseLe (Core.courseKeys rows)
  · rw [coursesIds_eq]
    exact pairwise_sortByLe courseLe_trans courseLe_total (Core.courseKeys rows)
  · intro i h
    have h' : i < ((Core.sortByLe Core.courseLe (Core.courseKeys rows)).enum.map
        (fun p : Nat × String =>
          (⟨p.2, "Курс " ++ toString (p.1 + 1)⟩ : Core.Course))).length := by
      rw [← rowsToMatrix_courses]
      exact h
    have hEq : (Core.rowsToMatrix rows).courses.get ⟨i, h⟩
        = ((Core.sortByLe Core.courseLe (Core.courseKeys rows)).enum.map
          (fun p : Nat × String =>
            (⟨p.2, "Курс " ++ toString (p.1 + 1)⟩ : Core.Course))).get ⟨i, h'⟩ := rfl
    rw [hEq, List.get_eq_getElem, List.getElem_map, List.getElem_enum]

/-- Witness for C3: the first course of the example input is `Курс 1`. -/
theorem c3_witness :
    (0 < (Core.rowsToMatrix rowsC3).courses.length)
    ∧ ((Core.rowsToMatrix rowsC3).courses.get ⟨0, by decide⟩).name = "Курс 1" :=
  ⟨by decide, (c3_theorem.1 rowsC3).2.2 0 (by decide)⟩

theorem string_data_inj {a b : String} (h : a.data = b.data) : a = b := by
  cases a with
  | mk la =>
    cases b with
    | mk lb => exact congrArg String.mk h

theorem dedupAcc_cons (seen : List String) (x : String) (xs : List String) :
    Core.dedupAcc seen (x :: xs)
      = if x ∈ seen then Core.dedupAcc seen xs
        else x :: Core.dedupAcc (x :: seen) xs := rfl

theorem dedupAcc_nodup : ∀ (l seen : List String),
    (Core.dedupAcc seen l).Nodup ∧ ∀ x ∈ Core.dedupAcc seen l, x ∉ seen := by
  intro l
  induction l with
  | nil => intro seen; exact ⟨List.Pairwise.nil, by simp [Core.dedupAcc]⟩
  | cons x xs ih =>
    intro seen
    by_cases hx : x ∈ seen
    · rw [dedupAcc_cons, if_pos hx]
      exact ih seen
    · rw [dedupAcc_cons, if_neg hx]
      obtain ⟨hnd, hns⟩ := ih (x :: seen)
      refine ⟨List.nodup_cons.mpr ⟨fun hmem => hns x hmem (List.mem_cons_self x seen), hnd⟩, ?_⟩
      intro y hy
      rcases List.mem_cons.mp hy with rfl | hy'
      · exact hx
      · exact fun hys => hns y hy' (List.mem_cons_of_mem x hys)

theorem stripTextKey_spec {a b : String} (h : Core.stripTextKey a = some b) :
    a.data = b.data ++ ['_', 't', 'e', 'x', 't'] := by
  unfold Core.stripTextKey at h
  split at h
  next hcond =>
    cases h
    conv_lhs => rw [← List.take_append_drop (a.data.length - 5) a.data]
    rw [hcond.1]
  next => exact Option.noConfusion h

theorem courseKeys_nodup (rows : List Core.SheetRow) : (Core.courseKeys rows).Nodup := by
  unfold Core.courseKeys
  apply List.Nodup.filterMap
  · intro a a' b hb hb'
    rw [Option.mem_def] at hb hb'
    apply string_data_inj
    rw [stripTextKey_spec hb, stripTextKey_spec hb']
  · exact (dedupAcc_nodup _ []).1

theorem courseIds_nodup (rows : List Core.SheetRow) :
    (Core.sortByLe Core.courseLe (Core.courseKeys rows)).Nodup :=
  ((perm_sortByLe Core.courseLe (Core.courseKeys rows)).symm).nodup (courseKeys_nodup rows)

theorem flatMap_match (courseIds : List String) :
    ∀ l : List (Nat × Core.SheetRow),
      (l.flatMap fun p =>
        match Core.critOfRow p.1 p.2 with
        | some c => courseIds.map fun cid => (cid, c.id)
        | none => [])
      = (l.filterMap fun p => Core.critOfRow p.1 p.2).flatMap
          fun c => courseIds.map fun cid => (cid, c.id) := by
  intro l
  induction l with
  | nil => rfl
  | cons a as ih =>
    rw [List.flatMap_cons, List.filterMap_cons]
    cases Core.critOfRow a.1 a.2 with
    | some b =>
      simp only
      rw [List.flatMap_cons, ih]
    | none =>
      simp only
      rw [List.nil_append, ih]

theorem cells_keys_eq (rows : List Core.SheetRow) :
    (Core.rowsToMatrix rows).cells.map (fun c => (c.courseId, c.criterionId))
      = (Core.rowCriteria rows).flatMap
          (fun c => (Core.sortByLe Core.courseLe (Core.courseKeys rows)).map
            (fun cid => (cid, c.id))) := by
  rw [show (Core.rowsToMatrix rows).cells = rows.enum.flatMap (fun p =>
      match Core.critOfRow p.1 p.2 with
      | some c => (Core.sortByLe Core.courseLe (Core.courseKeys rows)).map
          (Core.cellOfCourse p.2 c.id)
      | none => []) from rfl]
  rw [List.map_flatMap]
  have hstep : (fun p : Nat × Core.SheetRow =>
      List.map (fun c : Core.Cell => (c.courseId, c.criterionId))
        (match Core.critOfRow p.1 p.2 with
         | some c => (Core.sortByLe Core.courseLe (Core.courseKeys rows)).map
             (Core.cellOfCourse p.2 c.id)
         | none => []))
      = (fun p : Nat × Core.SheetRow =>
        match Core.critOfRow p.1 p.2 with
        | some c => (Core.sortByLe Core.courseLe (Core.courseKeys rows)).map
            (fun cid => (cid, c.id))
        | none => []) := by
    funext p
    cases Core.critOfRow p.1 p.2 with
    | some c =>
      simp only
      rw [List.map_map]
      rfl
    | none => rfl
  rw [hstep]
  exact flatMap_match (Core.sortByLe Core.courseLe (Core.courseKeys rows)) rows.enum

theorem set_self_of_getElem {α : Type} : ∀ (l : List α) (i : Nat) (h : i < l.length),
    l.set i (l.get ⟨i, h⟩) = l := by
  intro l
  induction l with
  | nil => intro i h; exact absurd h (Nat.not_lt_zero i)
  | cons x xs ih =>
    intro i h
    cases i with
    | zero => rfl
    | succ i =>
      show x :: xs.set i ((x :: xs).get ⟨i + 1, h⟩) = x :: xs
      have hstep : (x :: xs).get ⟨i + 1, h⟩
          = xs.get ⟨i, Nat.lt_of_succ_lt_succ h⟩ := rfl
      rw [hstep, ih i (Nat.lt_of_succ_lt_succ h)]

theorem keys_saveCellLocal (cells : List Core.Cell)
    (courseId criterionId text imagesLines : String)
    (h : (cells.map fun c => (c.courseId, c.criterionId)).Nodup) :
    ((Core.saveCellLocal cells courseId criterionId text imagesLines).map
        fun c => (c.courseId, c.criterionId)).Nodup := by
  unfold Core.saveCellLocal
  cases hidx : cells.findIdx?
      (fun c => c.courseId == courseId && c.criterionId == criterionId) with
  | some idx =>
    simp only [hidx]
    obtain ⟨hlen, hpi, _⟩ := List.findIdx?_eq_some_iff_getElem.mp hidx
    rw [Bool.and_eq_true] at hpi
    have hkey : ((cells.get ⟨idx, hlen⟩).courseId, (cells.get ⟨idx, hlen⟩).criterionId)
        = (courseId, criterionId) := by
      simp only [List.get_eq_getElem]
      rw [beq_iff_eq.mp hpi.1, beq_iff_eq.mp hpi.2]
    have hlen2 : idx < (cells.map fun c => (c.courseId, c.criterionId)).length := by
      rw [List.length_map]
      exact hlen
    have hget : (cells.map fun c => (c.courseId, c.criterionId)).get ⟨idx, hlen2⟩
        = (courseId, criterionId) := by
      simp only [List.get_eq_getElem, List.getElem_map]
      simp only [List.get_eq_getElem] at hkey
      exact hkey
    have hsame : (cells.map fun c => (c.courseId, c.criterionId)).set idx
        (courseId, criterionId) = cells.map fun c => (c.courseId, c.criterionId) := by
      conv_lhs => rw [← hget]
      exact set_self_of_getElem _ idx hlen2
    have hmapset : (cells.set idx
        (⟨courseId, criterionId, text, Core.parseImages imagesLines⟩ : Core.Cell)).map
          (fun c => (c.courseId, c.criterionId))
        = (cells.map fun c => (c.courseId, c.criterionId)).set idx
          (courseId, criterionId) := by
      rw [List.map_set]
    rw [hmapset, hsame]
    exact h
  | none =>
    simp only [hidx]
    rw [List.map_append, List.nodup_append]
    refine ⟨h, by simp, ?_⟩
    intro x hx hx2
    rw [List.findIdx?_eq_none_iff] at hidx
    simp only [List.map_cons, List.map_nil, List.mem_singleton] at hx2
    subst hx2
    rw [List.mem_map] at hx
    obtain ⟨c, hc, hkey⟩ := hx
    have hfalse := hidx c hc
    have h1 : c.courseId = courseId := congrArg Prod.fst hkey
    have h2 : c.criterionId = criterionId := congrArg Prod.snd hkey
    rw [h1, h2] at hfalse
    simp at hfalse

/-- C7 (counterexample): two records with the same explicit
`criterion_id=k1` each emit a cell for course `c1`, so the output carries
two cells with the same `(courseId, criterionId)` pair, contradicting the
claimed at-most-one-cell-per-pair invariant. -/
theorem c7_counterexample :
    ¬ ((Core.rowsToMatrix rowsDupId).cells.map
        fun c => (c.courseId, c.criterionId)).Nodup := by decide

/-- C7 (amended): if the criterion ids derived from the input records are
pairwise distinct, the builder emits at most one cell per
`(courseId, criterionId)` pair, and every `saveCell` local update preserves
that uniqueness (replacement keeps the key, insertion happens only when the
key is absent). -/
theorem c7_theorem :
    (∀ rows : List Core.SheetRow,
      (Core.rowCriteria rows).Pairwise (fun a b => a.id ≠ b.id) →
      ((Core.rowsToMatrix rows).cells.map fun c => (c.courseId, c.criterionId)).Nodup)
    ∧ (∀ (cells : List Core.Cell) (courseId criterionId text imagesLines : String),
      (cells.map fun c => (c.courseId, c.criterionId)).Nodup →
      ((Core.saveCellLocal cells courseId criterionId text imagesLines).map
          fun c => (c.courseId, c.criterionId)).Nodup) := by
  constructor
  · intro rows hp
    rw [cells_keys_eq, List.nodup_flatMap]
    constructor
    · intro c _
      apply List.Nodup.map
      · intro a b hab
        exact congrArg Prod.fst hab
      · exact courseIds_nodup rows
    · refine hp.imp ?_
      intro a b hab
      show List.Disjoint _ _
      intro x hxa hxb
      rw [List.mem_map] at hxa hxb
      obtain ⟨cid, _, hcid⟩ := hxa
      obtain ⟨cid', _, hcid'⟩ := hxb
      rw [← hcid'] at hcid
      exact hab (congrArg Prod.snd hcid)
  · exact keys_saveCellLocal

/-- Witness for C7: the single-record input has pairwise-distinct ids and
a duplicate-free cell key list; an empty cell list lets `saveCellLocal`
insert its first key. -/
theorem c7_witness :
    ((Core.rowCriteria rowsC1).Pairwise (fun a b => a.id ≠ b.id)
      ∧ ((Core.rowsToMatrix rowsC1).cells.map
          fun c => (c.courseId, c.criterionId)).Nodup)
    ∧ ((([] : List Core.Cell).map fun c => (c.courseId, c.criterionId)).Nodup
      ∧ ((Core.saveCellLocal [] "c1" "k1" "t" "").map
          fun c => (c.courseId, c.criterionId)).Nodup) :=
  ⟨⟨by decide, c7_theorem.1 rowsC1 (by decide)⟩,
   ⟨by decide, c7_theorem.2 [] "c1" "k1" "t" "" (by decide)⟩⟩

theorem rowsToMatrix_criteria (rows : List Core.SheetRow) :
    (Core.rowsToMatrix rows).criteria
      = (if (Core.rowCriteria rows).any (fun c => c.id == Core.COURSE_CRIT_ID)
         then Core.rowCriteria rows
         else Core.metaCriterion :: Core.rowCriteria rows) := rfl

theorem mem_criteria_ids_of_mem_rowCriteria {rows : List Core.SheetRow}
    {c : Core.Criterion} (h : c ∈ Core.rowCriteria rows) :
    c.id ∈ (Core.rowsToMatrix rows).criteria.map (·.id) := by
  rw [rowsToMatrix_criteria]
  split
  · exact List.mem_map.mpr ⟨c, h, rfl⟩
  · exact List.mem_map.mpr ⟨c, List.mem_cons_of_mem _ h, rfl⟩

theorem protoCoursesIds_eq (normalize : String → String) (rows : List Core.SheetRow) :
    (Proto.rowsToMatrix normalize rows).courses.map (·.id)
      = Core.sortByLe Core.courseLe (Core.courseKeys rows) := by
  rw [show (Proto.rowsToMatrix normalize rows).courses
      = (Core.sortByLe Core.courseLe (Core.courseKeys rows)).enum.map
          (fun p => ⟨p.2, "Курс " ++ toString (p.1 + 1)⟩) from rfl]
  rw [List.map_map]
  have : ((fun c : Core.Course => c.id) ∘ fun p : Nat × String =>
      (⟨p.2, "Курс " ++ toString (p.1 + 1)⟩ : Core.Course)) = Prod.snd := by
    funext p
    rfl
  rw [this, List.enum_map_snd]

/-- C10: referential integrity of the builder output, for both embedded
variants: every emitted cell's `courseId` occurs among the returned course
ids and its `criterionId` among the returned criterion ids. -/
theorem c10_theorem :
    (∀ (rows : List Core.SheetRow) (cell : Core.Cell),
      cell ∈ (Core.rowsToMatrix rows).cells →
      cell.courseId ∈ (Core.rowsToMatrix rows).courses.map (·.id)
      ∧ cell.criterionId ∈ (Core.rowsToMatrix rows).criteria.map (·.id))
    ∧ (∀ (normalize : String → String) (rows : List Core.SheetRow) (cell : Proto.Cell),
      cell ∈ (Proto.rowsToMatrix normalize rows).cells →
      cell.courseId ∈ (Proto.rowsToMatrix normalize rows).courses.map (·.id)
      ∧ cell.criterionId ∈ (Proto.rowsToMatrix normalize rows).criteria.map (·.id)) := by
  constructor
  · intro rows cell hmem
    rw [show (Core.rowsToMatrix rows).cells = rows.enum.flatMap (fun p =>
        match Core.critOfRow p.1 p.2 with
        | some c => (Core.sortByLe Core.courseLe (Core.courseKeys rows)).map
            (Core.cellOfCourse p.2 c.id)
        | none => []) from rfl] at hmem
    rw [List.mem_flatMap] at hmem
    obtain ⟨p, hp, hcell⟩ := hmem
    cases hcrit : Core.critOfRow p.1 p.2 with
    | none =>
      rw [hcrit] at hcell
      exact absurd hcell (List.not_mem_nil cell)
    | some c =>
      rw [hcrit] at hcell
      simp only at hcell
      rw [List.mem_map] at hcell
      obtain ⟨cid, hcid, hc⟩ := hcell
      have hcourse : cell.courseId = cid := by
        rw [← hc]
        rfl
      have hcritid : cell.criterionId = c.id := by
        rw [← hc]
        rfl
      constructor
      · rw [coursesIds_eq, hcourse]
        exact hcid
      · rw [hcritid]
        exact mem_criteria_ids_of_mem_rowCriteria
          (List.mem_filterMap.mpr ⟨p, hp, hcrit⟩)
  · intro normalize rows cell hmem
    rw [show (Proto.rowsToMatrix normalize rows).cells = rows.enum.flatMap (fun p =>
        match Proto.critOfRow p.1 p.2 with
        | some c => (Core.sortByLe Core.courseLe (Core.courseKeys rows)).filterMap
            (Proto.cellOfCourse normalize p.2 c.id)
        | none => []) from rfl] at hmem
    rw [List.mem_flatMap] at hmem
    obtain ⟨p, hp, hcell⟩ := hmem
    cases hcrit : Proto.critOfRow p.1 p.2 with
    | none =>
      rw [hcrit] at hcell
      exact absurd hcell (List.not_mem_nil cell)
    | some c =>
      rw [hcrit] at hcell
      simp only at hcell
      rw [List.mem_filterMap] at hcell
      obtain ⟨cid, hcid, hc⟩ := hcell
      simp only [Proto.cellOfCourse] at hc
      split at hc
      · cases hc
        constructor
        · rw [protoCoursesIds_eq]
          exact hcid
        · show c.id ∈ _
          rw [show (Proto.rowsToMatrix normalize rows).criteria
              = rows.enum.filterMap (fun p => Proto.critOfRow p.1 p.2) from rfl]
          exact List.mem_map.mpr ⟨c, List.mem_filterMap.mpr ⟨p, hp, hcrit⟩, rfl⟩
      · exact Option.noConfusion hc

/-- Witness for C10 at C1's concrete input and its emitted cell. -/
theorem c10_witness :
    (cellC1 ∈ (Core.rowsToMatrix rowsC1).cells)
    ∧ cellC1.courseId ∈ (Core.rowsToMatrix rowsC1).courses.map (·.id)
    ∧ cellC1.criterionId ∈ (Core.rowsToMatrix rowsC1).criteria.map (·.id) :=
  ⟨by decide, c10_theorem.1 rowsC1 cellC1 (by decide)⟩

/-- C9: the claim is right and the tsx code is wrong.  The `onHide` handler
changes only the hidden-course set (the matrix data is untouched), but it
persists under the FIXED storage key `hiddenCourseIds`, not the tab-scoped
`storageKey("hiddenCourseIds")` that the very same component reads back on
load (and that `part_003` correctly writes). -/
theorem c9_theorem :
    (Proto.onHideCourse uiStart "c1").data = uiStart.data
    ∧ (Proto.onHideCourse uiStart "c1").hiddenCourses = ["c1"]
    ∧ (Proto.onHideCourse uiStart "c1").store = [("hiddenCourseIds", ["c1"])]
    ∧ "hiddenCourseIds" ≠ Proto.storageKey "t1" "hiddenCourseIds" := by
  refine ⟨rfl, rfl, rfl, by decide⟩



